import Mathlib

/-!
LiteNES hardware abstraction layer (`src/hal.c`), framebuffer back end.

A shallow embedding of `hal.c`.  C `int` values are `Int`, `unsigned char`,
`unsigned short` and `__u32` values are `Nat` with the reduction modulo
`2^8`, `2^16`, `2^32` written out where a conversion happens.  The file-scope
variables of `hal.c` are the fields of `Hal`; device memory is a byte map
indexed by address, and every call of `lcd_fb_display_px` and every system
call is appended to a history kept in the state.
-/

namespace LiteNES

/-! ## Machine integer conversions -/

/-- Conversion of an `int` to `unsigned char` (reduction modulo `2^8`). -/
def toUChar (v : Int) : Nat := (v % 256).toNat

/-- Conversion of a non-negative `int` to `unsigned short` (reduction modulo `2^16`). -/
def toUShort (v : Nat) : Nat := v % 65536

/-- Conversion of an `int` to `unsigned int` (reduction modulo `2^32`). -/
def toUInt32 (v : Int) : Nat := (v % 4294967296).toNat

/-- Conversion of an `unsigned int` to `int` (two's complement wrap). -/
def toInt32 (n : Nat) : Int :=
  if n % 4294967296 < 2147483648 then ((n % 4294967296 : Nat) : Int)
  else ((n % 4294967296 : Nat) : Int) - 4294967296

/-! ## Types declared in headers -/

/-- Modelled from the spec: the `pal` struct of `fce.h` (not among the sources),
a palette entry with the three channels `r`, `g`, `b`. -/
structure pal where
  r : Nat
  g : Nat
  b : Nat
deriving DecidableEq

/-- Modelled from the spec: the `Pixel` struct of `hal.h` (not among the sources),
a pixel command with device coordinates `x`, `y` and palette index `c`. -/
structure Pixel where
  x : Int
  y : Int
  c : Nat
deriving DecidableEq

/-- Modelled from the spec: the `PixelBuf` struct of `hal.h` (not among the sources),
the first `size` entries of `buf` as an ordered sequence of pixel commands. -/
abbrev PixelBuf := List Pixel

/-- The fields of `struct fb_var_screeninfo` (`linux/fb.h`) read by `hal.c`; all are `__u32`. -/
structure fb_var_screeninfo where
  xres : Nat
  yres : Nat
  bits_per_pixel : Nat
deriving DecidableEq

/-- Constants that `hal.c` takes from `fce.h` and `common.h` (not among the sources):
the palette table and the screen size in pixels. -/
structure Headers where
  palette : Int → pal
  SCREEN_WIDTH : Nat
  SCREEN_HEIGHT : Nat

/-! ## State -/

/-- One library or system call made by `lcd_fb_init`. -/
inductive Call where
  | open
  | ioctl (fd : Int)
  | mmap (length : Int) (fd : Int)
  | close (fd : Int)
  | memset (addr : Int) (length : Int)
deriving DecidableEq

/-- One execution of `lcd_fb_display_px`: its coordinates, the address of the
pen and the 16-bit value stored there. -/
structure PxStore where
  x : Int
  y : Int
  addr : Int
  val : Nat
deriving DecidableEq

/-- The file-scope variables of `hal.c`, the bytes of memory, and the history of
calls and pixel stores. -/
structure Hal where
  fb_fd : Int
  fb_mem : Int
  px_width : Int
  line_width : Int
  screen_width : Int
  var : fb_var_screeninfo
  ram : Int → Nat
  calls : List Call
  stores : List PxStore

/-- Store of an `unsigned short` at address `a`: two bytes, low byte first as on the
little-endian hosts of the port. -/
def store16 (ram : Int → Nat) (a : Int) (v : Nat) : Int → Nat :=
  fun i => if i = a then v % 256 else if i = a + 1 then (v / 256) % 256 else ram i

/-- Load of an `unsigned short` from address `a` (two bytes, low byte first). -/
def read16 (ram : Int → Nat) (a : Int) : Nat :=
  ram a % 256 + 256 * (ram (a + 1) % 256)

/-! ## Colour conversion and the pixel writer -/

/-- The function `pal2color`: `pal.r << 16 | pal.g << 8 | pal.b`.  For channels below
`2^8` the value is below `2^24`, so the `int` result does not overflow. -/
def pal2color (p : pal) : Int :=
  ((((p.r <<< 16) ||| (p.g <<< 8)) ||| p.b : Nat) : Int)

/-- The address `fb_mem + y*line_width + x*px_width` computed by `lcd_fb_display_px`.
The two products are `int` multiplications in C; they are taken here as exact integer
products, which is what the code computes as long as neither product leaves the
`int` range (beyond it the C arithmetic overflows); `noOverflow` states that
condition for one execution of `lcd_fb_display_px`. -/
def pen8 (s : Hal) (x y : Int) : Int :=
  s.fb_mem + y * s.line_width + x * s.px_width

/-- The value `lcd_fb_display_px` assigns to `*pen16` for a given `color`. -/
def pen16_value (color : Int) : Nat :=
  let r : Nat := toUChar (Int.land (color >>> (16 : Nat)) 0xff)
  let g : Nat := toUChar (Int.land (color >>> (8 : Nat)) 0xff)
  let b : Nat := toUChar (Int.land (color >>> (0 : Nat)) 0xff)
  toUShort ((((b >>> 3) <<< 11) ||| ((g >>> 2) <<< 5)) ||| (r >>> 3))

/-- The function `lcd_fb_display_px`: stores the 16-bit pixel at the pen and returns 0. -/
def lcd_fb_display_px (s : Hal) (color x y : Int) : Int × Hal :=
  (0, { s with
          ram := store16 s.ram (pen8 s x y) (pen16_value color)
          stores := s.stores ++ [⟨x, y, pen8 s x y, pen16_value color⟩] })

/-- Specification-side colour codec (spec 4.2): `(b>>3)<<11 | (g>>2)<<5 | (r>>3)`. -/
def encode (r g b : Nat) : Nat :=
  (((b >>> 3) <<< 11) ||| ((g >>> 2) <<< 5)) ||| (r >>> 3)

/-- The encoding of a palette entry. -/
def encodePal (p : pal) : Nat := encode p.r p.g p.b

/-! ## Device initialisation -/

/-- What the operating system answers during one run of `lcd_fb_init`: the result
of `open` (a descriptor, or -1), the result of the `FBIOGET_VSCREENINFO` `ioctl`
(-1 on failure) with the screen info it writes on success, and the address
returned by `mmap` (`(void *)-1` on failure). -/
structure SysOutcome where
  open_ret : Int
  ioctl_ret : Int
  info : fb_var_screeninfo
  mmap_ret : Int

/-- The library function `memset(a, c, n)` on the byte map, for `n` not negative. -/
def memset (ram : Int → Nat) (a : Int) (c : Nat) (n : Int) : Int → Nat :=
  fun i => if a ≤ i ∧ i < a + n then c % 256 else ram i

/-- The function `lcd_fb_init` (the `printf` diagnostics are left out). -/
def lcd_fb_init (o : SysOutcome) (s : Hal) : Int × Hal :=
  let s := { s with fb_fd := o.open_ret, calls := s.calls ++ [Call.open] }
  if -1 = s.fb_fd then
    (-1, s)
  else
    let s := { s with calls := s.calls ++ [Call.ioctl s.fb_fd] }
    if -1 = o.ioctl_ret then
      let s := { s with calls := s.calls ++ [Call.close s.fb_fd] }
      (-1, s)
    else
      let s := { s with var := o.info }
      let s := { s with px_width := toInt32 (s.var.bits_per_pixel / 8) }
      let s := { s with line_width := toInt32 (s.var.xres * toUInt32 s.px_width) }
      let s := { s with screen_width := toInt32 (s.var.yres * toUInt32 s.line_width) }
      let s := { s with fb_mem := o.mmap_ret,
                        calls := s.calls ++ [Call.mmap s.screen_width s.fb_fd] }
      if s.fb_mem = -1 then
        let s := { s with calls := s.calls ++ [Call.close s.fb_fd] }
        (-1, s)
      else
        let s := { s with ram := memset s.ram s.fb_mem 0 s.screen_width,
                          calls := s.calls ++ [Call.memset s.fb_mem s.screen_width] }
        (0, s)

/-! ## Frame pacing -/

/-- The `type` field of an `ALLEGRO_EVENT`. -/
structure ALLEGRO_EVENT where
  type : Nat
deriving DecidableEq

/-- The Allegro 5 constant `ALLEGRO_EVENT_TIMER`. -/
def ALLEGRO_EVENT_TIMER : Nat := 30

/-- The function `wait_for_frame` on the sequence of events that `fce_event_queue`
delivers, oldest first.  Each iteration of the loop takes one event with
`al_wait_for_event`; the result is the queue left when the loop breaks, and
`none` when the events run out first (`al_wait_for_event` then blocks and the
function does not return). -/
def wait_for_frame : List ALLEGRO_EVENT → Option (List ALLEGRO_EVENT)
  | [] => none
  | event :: queue =>
    if event.type = ALLEGRO_EVENT_TIMER then some queue else wait_for_frame queue

/-! ## Drawing -/

/-- The body of the loop of `nes_flush_buf` for one pixel `p`.  The increments `x+1`
and `y+1` are `int` additions in C and are taken here as exact, which is what the
code computes as long as the coordinates passed on stay in the `int` range. -/
def nes_flush_buf_step (h : Headers) (s : Hal) (p : Pixel) : Hal :=
  let x := p.x
  let y := p.y
  let color := pal2color (h.palette (p.c : Int))
  let s := (lcd_fb_display_px s color x y).2
  let s := (lcd_fb_display_px s color (x + 1) y).2
  let s := (lcd_fb_display_px s color x (y + 1)).2
  let s := (lcd_fb_display_px s color (x + 1) (y + 1)).2
  s

/-- The function `nes_flush_buf`: the loop over `buf->buf[0 .. buf->size)`. -/
def nes_flush_buf (h : Headers) (s : Hal) (buf : PixelBuf) : Hal :=
  buf.foldl (nes_flush_buf_step h) s

/-- Allegro 5 key codes used by `nes_key_state`. -/
def ALLEGRO_KEY_A : Nat := 1
def ALLEGRO_KEY_D : Nat := 4
def ALLEGRO_KEY_I : Nat := 9
def ALLEGRO_KEY_J : Nat := 10
def ALLEGRO_KEY_K : Nat := 11
def ALLEGRO_KEY_S : Nat := 19
def ALLEGRO_KEY_U : Nat := 21
def ALLEGRO_KEY_W : Nat := 23

/-- A keyboard state as returned by `al_get_keyboard_state`: which key codes are down. -/
structure ALLEGRO_KEYBOARD_STATE where
  down : Nat → Bool

/-- The Allegro function `al_key_down`, as the C `int` it converts to. -/
def al_key_down (state : ALLEGRO_KEYBOARD_STATE) (keycode : Nat) : Int :=
  if state.down keycode then 1 else 0

/-- A joystick state as returned by `al_get_joystick_state`: `button[i]` and
`stick[i].axis[j]` (axis positions are taken as rationals). -/
structure ALLEGRO_JOYSTICK_STATE where
  button : Nat → Int
  stick_axis : Nat → Nat → Rat

/-- The C value of a comparison or of `!!e`: 1 when it holds, else 0. -/
def truth (p : Bool) : Int := if p then 1 else 0

/-- The function `nes_key_state`, given the keyboard state it reads. -/
def nes_key_state (state : ALLEGRO_KEYBOARD_STATE) (b : Int) : Int :=
  match b with
  | 0 => 1
  | 1 => al_key_down state ALLEGRO_KEY_K
  | 2 => al_key_down state ALLEGRO_KEY_J
  | 3 => al_key_down state ALLEGRO_KEY_U
  | 4 => al_key_down state ALLEGRO_KEY_I
  | 5 => al_key_down state ALLEGRO_KEY_W
  | 6 => al_key_down state ALLEGRO_KEY_S
  | 7 => al_key_down state ALLEGRO_KEY_A
  | 8 => al_key_down state ALLEGRO_KEY_D
  | _ => 1

/-- The function `nes_joy_state`, given the state that `al_get_joystick_state` returns
for the last joystick. -/
def nes_joy_state (state : ALLEGRO_JOYSTICK_STATE) (b : Int) : Int :=
  match b with
  | 0 => 1
  | 1 => truth (state.button 1 != 0)
  | 2 => truth (state.button 2 != 0)
  | 3 => truth (state.button 8 != 0)
  | 4 => truth (state.button 9 != 0)
  | 5 => truth (state.stick_axis 0 1 == -1)
  | 6 => truth (state.stick_axis 0 1 == 1)
  | 7 => truth (state.stick_axis 0 0 == -1)
  | 8 => truth (state.stick_axis 0 0 == 1)
  | _ => 1

/-! ## Specification-side notions -/

/-- The table `palette` holds `uint8` channels at each of its 64 indices (spec 3:
a table of 64 entries, each an `{r,g,b: uint8}` triple). -/
def paletteOK (h : Headers) : Prop :=
  ∀ c : Nat, c < 64 →
    (h.palette (c : Int)).r ≤ 255 ∧ (h.palette (c : Int)).g ≤ 255
      ∧ (h.palette (c : Int)).b ≤ 255

instance (h : Headers) : Decidable (paletteOK h) := by
  unfold paletteOK
  exact inferInstance

/-- The coordinate `(x, y)` belongs to the 2x2 block `(p.x, p.y)`, `(p.x+1, p.y)`,
`(p.x, p.y+1)`, `(p.x+1, p.y+1)` of the pixel command `p`. -/
def covers (x y : Int) (p : Pixel) : Bool :=
  (x == p.x || x == p.x + 1) && (y == p.y || y == p.y + 1)

/-- The last command of the buffer, in buffer order, whose block covers `(x, y)`. -/
def lastCovering (buf : PixelBuf) (x y : Int) : Option Pixel :=
  (buf.filter (covers x y)).getLast?

/-- The value `v` is representable in a 32-bit `int`. -/
def fitsInt (v : Int) : Prop := -2147483648 ≤ v ∧ v ≤ 2147483647

instance (v : Int) : Decidable (fitsInt v) := by
  unfold fitsInt
  exact inferInstance

/-- The execution `e` of `lcd_fb_display_px` in a state with the geometry of `s` has
its coordinates and both products `y*line_width` and `x*px_width` within the `int`
range: no `int` operation on the way to the pen overflows. -/
def noOverflow (s : Hal) (e : PxStore) : Prop :=
  fitsInt e.x ∧ fitsInt e.y ∧ fitsInt (e.y * s.line_width) ∧ fitsInt (e.x * s.px_width)

instance (s : Hal) (e : PxStore) : Decidable (noOverflow s e) := by
  unfold noOverflow
  exact inferInstance

/-- The four executions of `lcd_fb_display_px` made by `nes_flush_buf` for the pixel
command `p`, in order, on the geometry of `s`. -/
def blockStores (h : Headers) (s : Hal) (p : Pixel) : List PxStore :=
  [⟨p.x, p.y, pen8 s p.x p.y, pen16_value (pal2color (h.palette (p.c : Int)))⟩,
   ⟨p.x + 1, p.y, pen8 s (p.x + 1) p.y, pen16_value (pal2color (h.palette (p.c : Int)))⟩,
   ⟨p.x, p.y + 1, pen8 s p.x (p.y + 1), pen16_value (pal2color (h.palette (p.c : Int)))⟩,
   ⟨p.x + 1, p.y + 1, pen8 s (p.x + 1) (p.y + 1),
     pen16_value (pal2color (h.palette (p.c : Int)))⟩]

/-- The pixel stores made between the state `before` and the later state `after`. -/
def newStores (before after : Hal) : List PxStore :=
  after.stores.drop before.stores.length

/-! ## Sample data for closed instances -/

/-- A palette whose 64 entries are the grey ramp `(4c, 4c, 4c)`. -/
def greyPalette : Int → pal :=
  fun c => if 0 ≤ c ∧ c < 64 then ⟨4 * c.toNat, 4 * c.toNat, 4 * c.toNat⟩ else ⟨0, 0, 0⟩

/-- Headers with the grey palette and a `w` by `h` screen. -/
def sampleHeaders (w h : Nat) : Headers := ⟨greyPalette, w, h⟩

/-- A state with the given geometry, the mapping at address 0, zeroed memory and
empty histories. -/
def sampleHal (px_width line_width screen_width : Int) : Hal :=
  { fb_fd := 3, fb_mem := 0, px_width := px_width, line_width := line_width,
    screen_width := screen_width, var := ⟨0, 0, 0⟩, ram := fun _ => 0,
    calls := [], stores := [] }

/-- The state before `nes_hal_init`: the zero-initialised file-scope variables. -/
def initialHal : Hal := sampleHal 0 0 0

/-- The state after `lcd_fb_init` on a 16-bit device of `xres` by `yres` pixels whose
memory is mapped at address 4096. -/
def mockHal (xres yres : Nat) : Hal :=
  (lcd_fb_init ⟨3, 0, ⟨xres, yres, 16⟩, 4096⟩ initialHal).2

/-! ## Lemmas on the colour codec -/

theorem or_shift_eq_add (a b k : Nat) (hb : b < 2 ^ k) : (a <<< k) ||| b = a * 2 ^ k + b := by
  rw [Nat.shiftLeft_eq, Nat.mul_comm a, ← Nat.mul_add_lt_is_or hb]

theorem pal2color_eq (p : pal) (hg : p.g ≤ 255) (hb : p.b ≤ 255) :
    pal2color p = ((p.r * 65536 + p.g * 256 + p.b : Nat) : Int) := by
  unfold pal2color
  have h1 : (p.r <<< 16) ||| (p.g <<< 8) = p.r * 65536 + p.g * 256 := by
    have h256 : p.g * 2 ^ 8 < 2 ^ 16 := by omega
    rw [Nat.shiftLeft_eq p.g 8, or_shift_eq_add p.r (p.g * 2 ^ 8) 16 h256]
    omega
  have h2 : (p.r * 65536 + p.g * 256) ||| p.b = p.r * 65536 + p.g * 256 + p.b := by
    have hb8 : p.b < 2 ^ 8 := by omega
    have h := or_shift_eq_add (p.r * 256 + p.g) p.b 8 hb8
    have e : (p.r * 256 + p.g) <<< 8 = p.r * 65536 + p.g * 256 := by
      rw [Nat.shiftLeft_eq]; omega
    rw [e] at h
    omega
  rw [h1, h2]

theorem chan_nat (n k : Nat) :
    toUChar (Int.land (((n : Nat) : Int) >>> k) 0xff) = (n / 2 ^ k) % 256 := by
  have h1 : (((n : Nat) : Int) >>> k) = (((n >>> k : Nat)) : Int) := rfl
  have h2 : Int.land (((n >>> k : Nat)) : Int) 0xff = (((n >>> k) &&& 255 : Nat) : Int) := rfl
  rw [h1, h2]
  have h3 : (n >>> k) &&& 255 = (n >>> k) % 256 := Nat.and_pow_two_sub_one_eq_mod (n >>> k) 8
  rw [h3, Nat.shiftRight_eq_div_pow]
  unfold toUChar
  omega

theorem encode_lt (r g b : Nat) (hr : r ≤ 255) (hg : g ≤ 255) (hb : b ≤ 255) :
    encode r g b < 65536 := by
  unfold encode
  have h1 : (b >>> 3) <<< 11 < 2 ^ 16 := by
    rw [Nat.shiftRight_eq_div_pow, Nat.shiftLeft_eq]; omega
  have h2 : (g >>> 2) <<< 5 < 2 ^ 16 := by
    rw [Nat.shiftRight_eq_div_pow, Nat.shiftLeft_eq]; omega
  have h3 : r >>> 3 < 2 ^ 16 := by
    rw [Nat.shiftRight_eq_div_pow]; omega
  exact Nat.or_lt_two_pow (Nat.or_lt_two_pow h1 h2) h3

theorem pen16_value_pal2color (p : pal) (hr : p.r ≤ 255) (hg : p.g ≤ 255) (hb : p.b ≤ 255) :
    pen16_value (pal2color p) = encode p.r p.g p.b := by
  have hlt := encode_lt p.r p.g p.b hr hg hb
  unfold pen16_value
  rw [pal2color_eq p hg hb]
  simp only [chan_nat]
  have e16 : (p.r * 65536 + p.g * 256 + p.b) / 2 ^ 16 % 256 = p.r := by omega
  have e8 : (p.r * 65536 + p.g * 256 + p.b) / 2 ^ 8 % 256 = p.g := by omega
  have e0 : (p.r * 65536 + p.g * 256 + p.b) / 2 ^ 0 % 256 = p.b := by omega
  rw [e16, e8, e0]
  unfold encode at hlt
  unfold toUShort
  exact Nat.mod_eq_of_lt hlt

/-! ## Lemmas on memory -/

theorem read16_store16_same (ram : Int → Nat) (a : Int) (v : Nat) (hv : v < 65536) :
    read16 (store16 ram a v) a = v := by
  unfold read16 store16
  have h1 : a + 1 ≠ a := by omega
  simp only [if_true, h1, if_false]
  omega

theorem read16_store16_other (ram : Int → Nat) (a a' : Int) (v : Nat)
    (h : a' + 2 ≤ a ∨ a + 2 ≤ a') :
    read16 (store16 ram a v) a' = read16 ram a' := by
  unfold read16 store16
  have h1 : a' ≠ a := by omega
  have h2 : a' ≠ a + 1 := by omega
  have h3 : a' + 1 ≠ a := by omega
  have h4 : a' + 1 ≠ a + 1 := by omega
  simp only [h1, h2, h3, h4, if_false]

/-! ## Lemmas on 32-bit conversions -/

theorem toInt32_of_lt (n : Nat) (h : n < 2147483648) : toInt32 n = (n : Int) := by
  unfold toInt32
  have e : n % 4294967296 = n := Nat.mod_eq_of_lt (by omega)
  rw [e, if_pos h]

theorem toUInt32_natCast (n : Nat) (h : n < 4294967296) : toUInt32 (n : Int) = n := by
  unfold toUInt32
  omega

/-! ## The colour codec (C1) -/

/-- C1: for every palette entry with `r`, `g`, `b` in `[0,255]`, `lcd_fb_display_px`
applied to `pal2color` of the entry unpacks the entry's own three channels, and the
store it makes (recorded in the history and readable back from memory) is the 16-bit
value `(b>>3)<<11 | (g>>2)<<5 | (r>>3)`, which is below `2^16` and in which red
fills only the bits `[0:5)`; full red `(255,0,0)` stores `0x001F`. -/
theorem lcd_fb_display_px_pal2color (s : Hal) (p : pal) (x y : Int)
    (hr : p.r ≤ 255) (hg : p.g ≤ 255) (hb : p.b ≤ 255) :
    (toUChar (Int.land (pal2color p >>> (16 : Nat)) 0xff) = p.r
      ∧ toUChar (Int.land (pal2color p >>> (8 : Nat)) 0xff) = p.g
      ∧ toUChar (Int.land (pal2color p >>> (0 : Nat)) 0xff) = p.b)
    ∧ (lcd_fb_display_px s (pal2color p) x y).2.stores =
        s.stores ++ [⟨x, y, pen8 s x y,
          (((p.b >>> 3) <<< 11) ||| ((p.g >>> 2) <<< 5)) ||| (p.r >>> 3)⟩]
    ∧ read16 (lcd_fb_display_px s (pal2color p) x y).2.ram (pen8 s x y) =
        ((((p.b >>> 3) <<< 11) ||| ((p.g >>> 2) <<< 5)) ||| (p.r >>> 3))
    ∧ ((((p.b >>> 3) <<< 11) ||| ((p.g >>> 2) <<< 5)) ||| (p.r >>> 3)) < 2 ^ 16
    ∧ p.r >>> 3 < 2 ^ 5
    ∧ (lcd_fb_display_px s (pal2color ⟨255, 0, 0⟩) x y).2.stores =
        s.stores ++ [⟨x, y, pen8 s x y, 0x001F⟩] := by
  have hv := pen16_value_pal2color p hr hg hb
  have hlt := encode_lt p.r p.g p.b hr hg hb
  unfold encode at hv hlt
  refine ⟨⟨?_, ?_, ?_⟩, ?_, ?_, hlt, ?_, ?_⟩
  · rw [pal2color_eq p hg hb, chan_nat]; omega
  · rw [pal2color_eq p hg hb, chan_nat]; omega
  · rw [pal2color_eq p hg hb, chan_nat]; omega
  · simp only [lcd_fb_display_px, hv]
  · simp only [lcd_fb_display_px, hv]
    exact read16_store16_same _ _ _ hlt
  · rw [Nat.shiftRight_eq_div_pow]; omega
  · have hred : pen16_value (pal2color ⟨255, 0, 0⟩) = 0x001F := by decide
    simp only [lcd_fb_display_px, hred]

/-- Instance of C1 at the palette entry `(0x37, 0x00, 0xBF)`, drawn at `(5, 7)` on a
320-pixel-wide 16-bit screen. -/
theorem lcd_fb_display_px_pal2color_witness :
    (lcd_fb_display_px (sampleHal 2 640 153600) (pal2color ⟨0x37, 0x00, 0xBF⟩) 5 7).2.stores =
        [⟨5, 7, 4490, 0xB806⟩]
    ∧ read16 (lcd_fb_display_px (sampleHal 2 640 153600) (pal2color ⟨0x37, 0x00, 0xBF⟩) 5 7).2.ram
        4490 = 0xB806 := by
  have h := lcd_fb_display_px_pal2color (sampleHal 2 640 153600) ⟨0x37, 0x00, 0xBF⟩ 5 7
    (by decide) (by decide) (by decide)
  exact ⟨h.2.1, h.2.2.1⟩

/-! ## Geometry (C2) -/

theorem lcd_fb_init_fields (o : SysOutcome) (s : Hal)
    (hopen : o.open_ret ≠ -1) (hioctl : o.ioctl_ret ≠ -1)
    (hbpp : o.info.bits_per_pixel < 2 ^ 32)
    (hline : o.info.xres * (o.info.bits_per_pixel / 8) < 2 ^ 31)
    (hscreen : o.info.yres * (o.info.xres * (o.info.bits_per_pixel / 8)) < 2 ^ 31) :
    (lcd_fb_init o s).2.px_width = ((o.info.bits_per_pixel / 8 : Nat) : Int)
    ∧ (lcd_fb_init o s).2.line_width =
        ((o.info.xres * (o.info.bits_per_pixel / 8) : Nat) : Int)
    ∧ (lcd_fb_init o s).2.screen_width =
        ((o.info.yres * (o.info.xres * (o.info.bits_per_pixel / 8)) : Nat) : Int) := by
  have h1 : ¬ (-1 = o.open_ret) := fun h => hopen h.symm
  have h2 : ¬ (-1 = o.ioctl_ret) := fun h => hioctl h.symm
  have hpw : toInt32 (o.info.bits_per_pixel / 8) = ((o.info.bits_per_pixel / 8 : Nat) : Int) :=
    toInt32_of_lt _ (by omega)
  have hupw : toUInt32 ((o.info.bits_per_pixel / 8 : Nat) : Int) = o.info.bits_per_pixel / 8 :=
    toUInt32_natCast _ (by omega)
  have hlw : toInt32 (o.info.xres * (o.info.bits_per_pixel / 8)) =
      ((o.info.xres * (o.info.bits_per_pixel / 8) : Nat) : Int) :=
    toInt32_of_lt _ (by omega)
  have hulw : toUInt32 ((o.info.xres * (o.info.bits_per_pixel / 8) : Nat) : Int) =
      o.info.xres * (o.info.bits_per_pixel / 8) :=
    toUInt32_natCast _ (by omega)
  have hsw : toInt32 (o.info.yres * (o.info.xres * (o.info.bits_per_pixel / 8))) =
      ((o.info.yres * (o.info.xres * (o.info.bits_per_pixel / 8)) : Nat) : Int) :=
    toInt32_of_lt _ (by omega)
  unfold lcd_fb_init
  simp only [h1, h2, if_false]
  by_cases hm : o.mmap_ret = -1
  · simp only [hm, if_true, hpw, hupw, hlw, hulw, hsw, and_self]
  · simp only [hm, if_false, hpw, hupw, hlw, hulw, hsw, and_self]

/-- C2: when `open` and the `ioctl` succeed and the reported `__u32` screen info has
products that fit in a 32-bit `int`, `lcd_fb_init` leaves `px_width = bits_per_pixel / 8`
(integer division), `line_width = xres * px_width` and
`screen_width = yres * line_width`; for `bits_per_pixel = 16`, `xres = 320`,
`yres = 240` that is `line_width = 640` and `screen_width = 153600`. -/
theorem lcd_fb_init_geometry (o : SysOutcome) (s : Hal)
    (hopen : o.open_ret ≠ -1) (hioctl : o.ioctl_ret ≠ -1)
    (hbpp : o.info.bits_per_pixel < 2 ^ 32)
    (hline : o.info.xres * (o.info.bits_per_pixel / 8) < 2 ^ 31)
    (hscreen : o.info.yres * (o.info.xres * (o.info.bits_per_pixel / 8)) < 2 ^ 31) :
    (lcd_fb_init o s).2.px_width = ((o.info.bits_per_pixel / 8 : Nat) : Int)
    ∧ (lcd_fb_init o s).2.line_width = (o.info.xres : Int) * (lcd_fb_init o s).2.px_width
    ∧ (lcd_fb_init o s).2.screen_width = (o.info.yres : Int) * (lcd_fb_init o s).2.line_width
    ∧ (o.info.bits_per_pixel = 16 → o.info.xres = 320 → o.info.yres = 240 →
        (lcd_fb_init o s).2.line_width = 640 ∧ (lcd_fb_init o s).2.screen_width = 153600) := by
  obtain ⟨k1, k2, k3⟩ := lcd_fb_init_fields o s hopen hioctl hbpp hline hscreen
  refine ⟨k1, ?_, ?_, ?_⟩
  · rw [k2, k1]; push_cast; ring
  · rw [k3, k2]; push_cast; ring
  · intro hb hx hy
    rw [k2, k3, hb, hx, hy]
    constructor <;> norm_num

/-- Instance of C2 for the mock device of the spec: 16 bits per pixel, 320 by 240. -/
theorem lcd_fb_init_geometry_witness :
    (lcd_fb_init ⟨3, 0, ⟨320, 240, 16⟩, 4096⟩ initialHal).2.px_width = 2
    ∧ (lcd_fb_init ⟨3, 0, ⟨320, 240, 16⟩, 4096⟩ initialHal).2.line_width = 640
    ∧ (lcd_fb_init ⟨3, 0, ⟨320, 240, 16⟩, 4096⟩ initialHal).2.screen_width = 153600 := by
  have h := lcd_fb_init_geometry ⟨3, 0, ⟨320, 240, 16⟩, 4096⟩ initialHal
    (by decide) (by decide) (by decide) (by decide) (by decide)
  have h4 := h.2.2.2 rfl rfl rfl
  exact ⟨by rw [h.1]; rfl, h4.1, h4.2⟩

/-! ## Failure paths of the initialisation (C5) -/

/-- C5: with the outcomes of `open`, `ioctl` and `mmap` as inputs, a run of
`lcd_fb_init` in which `open` succeeds and `mmap` fails returns -1 after closing the
opened descriptor exactly once; so does a run in which `open` succeeds and the
screen-info `ioctl` fails; and when `open` fails it returns -1 having made no other
call (nothing queried, mapped or closed). -/
theorem lcd_fb_init_failure_paths (o : SysOutcome) (s : Hal) :
    (o.open_ret ≠ -1 → o.ioctl_ret ≠ -1 → o.mmap_ret = -1 →
      (lcd_fb_init o s).1 = -1
      ∧ (lcd_fb_init o s).2.calls = s.calls ++
          [Call.open, Call.ioctl o.open_ret,
           Call.mmap (lcd_fb_init o s).2.screen_width o.open_ret, Call.close o.open_ret]
      ∧ ((lcd_fb_init o s).2.calls.drop s.calls.length).count (Call.close o.open_ret) = 1)
    ∧ (o.open_ret ≠ -1 → o.ioctl_ret = -1 →
      (lcd_fb_init o s).1 = -1
      ∧ (lcd_fb_init o s).2.calls = s.calls ++
          [Call.open, Call.ioctl o.open_ret, Call.close o.open_ret]
      ∧ ((lcd_fb_init o s).2.calls.drop s.calls.length).count (Call.close o.open_ret) = 1)
    ∧ (o.open_ret = -1 →
      (lcd_fb_init o s).1 = -1
      ∧ (lcd_fb_init o s).2.calls = s.calls ++ [Call.open]) := by
  refine ⟨?_, ?_, ?_⟩
  · intro hopen hioctl hmmap
    have h1 : ¬ (-1 = o.open_ret) := fun h => hopen h.symm
    have h2 : ¬ (-1 = o.ioctl_ret) := fun h => hioctl h.symm
    have hc : (lcd_fb_init o s).2.calls = s.calls ++
        [Call.open, Call.ioctl o.open_ret,
         Call.mmap (lcd_fb_init o s).2.screen_width o.open_ret, Call.close o.open_ret] := by
      simp [lcd_fb_init, h1, h2, hmmap]
    refine ⟨?_, hc, ?_⟩
    · unfold lcd_fb_init
      simp only [h1, h2, hmmap, if_false, if_true]
    · rw [hc, List.drop_left]
      simp [List.count_cons]
  · intro hopen hioctl
    have h1 : ¬ (-1 = o.open_ret) := fun h => hopen h.symm
    have hc : (lcd_fb_init o s).2.calls = s.calls ++
        [Call.open, Call.ioctl o.open_ret, Call.close o.open_ret] := by
      simp [lcd_fb_init, h1, hioctl]
    refine ⟨?_, hc, ?_⟩
    · simp [lcd_fb_init, h1, hioctl]
    · rw [hc, List.drop_left]
      simp [List.count_cons]
  · intro hopen
    constructor
    · simp [lcd_fb_init, hopen]
    · simp [lcd_fb_init, hopen]

/-- Instance of C5: descriptor 3 is opened, the query succeeds and `mmap` fails. -/
theorem lcd_fb_init_failure_paths_witness :
    (lcd_fb_init ⟨3, 0, ⟨320, 240, 16⟩, -1⟩ initialHal).1 = -1
    ∧ (lcd_fb_init ⟨3, 0, ⟨320, 240, 16⟩, -1⟩ initialHal).2.calls =
        [Call.open, Call.ioctl 3, Call.mmap 153600 3, Call.close 3]
    ∧ (lcd_fb_init ⟨3, -1, ⟨0, 0, 0⟩, 4096⟩ initialHal).2.calls =
        [Call.open, Call.ioctl 3, Call.close 3]
    ∧ (lcd_fb_init ⟨-1, 0, ⟨320, 240, 16⟩, 4096⟩ initialHal).2.calls = [Call.open] := by
  have h1 := (lcd_fb_init_failure_paths ⟨3, 0, ⟨320, 240, 16⟩, -1⟩ initialHal).1
    (by decide) (by decide) rfl
  have h2 := (lcd_fb_init_failure_paths ⟨3, -1, ⟨0, 0, 0⟩, 4096⟩ initialHal).2.1
    (by decide) rfl
  have h3 := (lcd_fb_init_failure_paths ⟨-1, 0, ⟨320, 240, 16⟩, 4096⟩ initialHal).2.2 rfl
  exact ⟨h1.1, h1.2.1, h2.2.1, h3.2⟩

/-! ## Frame pacing (C6) -/

theorem wait_for_frame_split (pre : List ALLEGRO_EVENT) (t : ALLEGRO_EVENT)
    (post : List ALLEGRO_EVENT) (hpre : ∀ e ∈ pre, e.type ≠ ALLEGRO_EVENT_TIMER)
    (ht : t.type = ALLEGRO_EVENT_TIMER) :
    wait_for_frame (pre ++ t :: post) = some post := by
  induction pre with
  | nil => simp [wait_for_frame, ht]
  | cons e pre ih =>
    have he : e.type ≠ ALLEGRO_EVENT_TIMER := hpre e (List.mem_cons_self _ _)
    have hrest : ∀ e' ∈ pre, e'.type ≠ ALLEGRO_EVENT_TIMER :=
      fun e' h' => hpre e' (List.mem_cons_of_mem _ h')
    simp only [List.cons_append, wait_for_frame, he, if_false]
    exact ih hrest

theorem wait_for_frame_returns (queue rest : List ALLEGRO_EVENT)
    (h : wait_for_frame queue = some rest) :
    ∃ pre t, queue = pre ++ t :: rest ∧ t.type = ALLEGRO_EVENT_TIMER
      ∧ ∀ e ∈ pre, e.type ≠ ALLEGRO_EVENT_TIMER := by
  induction queue with
  | nil => simp [wait_for_frame] at h
  | cons e queue ih =>
    by_cases he : e.type = ALLEGRO_EVENT_TIMER
    · simp only [wait_for_frame, he, if_true, Option.some.injEq] at h
      exact ⟨[], e, by simp [h], he, by simp⟩
    · simp only [wait_for_frame, he, if_false] at h
      obtain ⟨pre, t, hq, ht, hpre⟩ := ih h
      refine ⟨e :: pre, t, by simp [hq], ht, ?_⟩
      intro e' he'
      rcases List.mem_cons.mp he' with h1 | h1
      · rw [h1]; exact he
      · exact hpre e' h1

/-- C6: on an event sequence whose first timer event is at position `k`,
`wait_for_frame` returns having consumed exactly the `k+1` events up to and including
that timer event (the `k` non-timer events before it are discarded, every later event
stays queued); and whenever it returns, the consumed events end with a timer event,
so it never returns after consuming only non-timer events. -/
theorem wait_for_frame_first_timer (queue : List ALLEGRO_EVENT) (k : Nat)
    (hk : k < queue.length)
    (htimer : (queue.get ⟨k, hk⟩).type = ALLEGRO_EVENT_TIMER)
    (hbefore : ∀ e ∈ queue.take k, e.type ≠ ALLEGRO_EVENT_TIMER) :
    wait_for_frame queue = some (queue.drop (k + 1))
    ∧ (∀ q rest, wait_for_frame q = some rest →
        ∃ pre t, q = pre ++ t :: rest ∧ t.type = ALLEGRO_EVENT_TIMER
          ∧ ∀ e ∈ pre, e.type ≠ ALLEGRO_EVENT_TIMER)
    ∧ (∀ q, (∀ e ∈ q, e.type ≠ ALLEGRO_EVENT_TIMER) → wait_for_frame q = none) := by
  refine ⟨?_, wait_for_frame_returns, ?_⟩
  · have hsplit : queue = queue.take k ++ queue.get ⟨k, hk⟩ :: queue.drop (k + 1) := by
      rw [List.get_eq_getElem, ← List.drop_eq_getElem_cons hk, List.take_append_drop]
    have h := wait_for_frame_split (queue.take k) (queue.get ⟨k, hk⟩) (queue.drop (k + 1))
      hbefore htimer
    rw [← hsplit] at h
    exact h
  · intro q hq
    cases hres : wait_for_frame q with
    | none => rfl
    | some rest =>
      obtain ⟨pre, t, hq', ht, _⟩ := wait_for_frame_returns q rest hres
      have hmem : t ∈ q := by rw [hq']; simp
      exact absurd ht (hq t hmem)

/-- Instance of C6: two key events, a timer tick, a key event and a second tick. -/
theorem wait_for_frame_first_timer_witness :
    wait_for_frame [⟨10⟩, ⟨12⟩, ⟨30⟩, ⟨10⟩, ⟨30⟩] = some [⟨10⟩, ⟨30⟩] :=
  (wait_for_frame_first_timer [⟨10⟩, ⟨12⟩, ⟨30⟩, ⟨10⟩, ⟨30⟩] 2 (by decide) (by decide)
    (by decide)).1

/-! ## Input sampling (C7, C8) -/

/-- C7: for every keyboard state `nes_key_state(0)` is 1 and for every joystick state
`nes_joy_state(0)` is 1: POWER reports pressed whatever the devices say. -/
theorem power_always_pressed :
    (∀ state : ALLEGRO_KEYBOARD_STATE, nes_key_state state 0 = 1)
    ∧ (∀ state : ALLEGRO_JOYSTICK_STATE, nes_joy_state state 0 = 1) :=
  ⟨fun _ => rfl, fun _ => rfl⟩

theorem nes_key_state_default (state : ALLEGRO_KEYBOARD_STATE) (b : Int)
    (hb : b < 0 ∨ 8 < b) : nes_key_state state b = 1 := by
  unfold nes_key_state
  split <;> first | rfl | omega

theorem nes_joy_state_default (state : ALLEGRO_JOYSTICK_STATE) (b : Int)
    (hb : b < 0 ∨ 8 < b) : nes_joy_state state b = 1 := by
  unfold nes_joy_state
  split <;> first | rfl | omega

/-- C8: for every button identifier outside `0..8`, negative ones included, and every
keyboard and joystick state, `nes_key_state` and `nes_joy_state` both return 1. -/
theorem unknown_button_pressed (b : Int) (hb : b < 0 ∨ 8 < b)
    (kstate : ALLEGRO_KEYBOARD_STATE) (jstate : ALLEGRO_JOYSTICK_STATE) :
    nes_key_state kstate b = 1 ∧ nes_joy_state jstate b = 1 :=
  ⟨nes_key_state_default kstate b hb, nes_joy_state_default jstate b hb⟩

/-- Instance of C8 at the identifier -1 with nothing pressed and the stick centred. -/
theorem unknown_button_pressed_witness :
    ((-1 : Int) < 0 ∨ 8 < (-1 : Int))
    ∧ nes_key_state ⟨fun _ => false⟩ (-1) = 1
    ∧ nes_joy_state ⟨fun _ => 0, fun _ _ => 0⟩ (-1) = 1 :=
  ⟨by decide, unknown_button_pressed (-1) (by decide) ⟨fun _ => false⟩ ⟨fun _ => 0, fun _ _ => 0⟩⟩

/-! ## Addressing on a 16-bit screen (C10) -/

theorem read16_store16 (ram : Int → Nat) (a a' : Int) (v : Nat) (hv : v < 65536)
    (h : a' = a ∨ a' + 2 ≤ a ∨ a + 2 ≤ a') :
    read16 (store16 ram a v) a' = if a' = a then v else read16 ram a' := by
  by_cases e : a' = a
  · rw [if_pos e, e]; exact read16_store16_same ram a v hv
  · rw [if_neg e]
    rcases h with h | h
    · exact absurd h e
    · exact read16_store16_other ram a a' v h

theorem pen16_value_lt (color : Int) : pen16_value color < 65536 := by
  unfold pen16_value toUShort
  exact Nat.mod_lt _ (by norm_num)

theorem offset_bounds (X Y x y : Int) (hx0 : 0 ≤ x) (hx : x < X) (hy0 : 0 ≤ y) (hy : y < Y) :
    0 ≤ y * (2 * X) + x * 2 ∧ y * (2 * X) + x * 2 + 2 ≤ Y * (2 * X) := by
  have hX : 0 ≤ X := by omega
  have h1 : 0 ≤ y * X := mul_nonneg hy0 hX
  have h2 : 0 ≤ (Y - 1 - y) * X := mul_nonneg (by omega) hX
  constructor
  · nlinarith
  · nlinarith

theorem offset_disjoint (X x y x' y' : Int) (hx0 : 0 ≤ x) (hx : x < X)
    (hx0' : 0 ≤ x') (hx' : x' < X) (hne : x ≠ x' ∨ y ≠ y') :
    y * (2 * X) + x * 2 + 2 ≤ y' * (2 * X) + x' * 2
      ∨ y' * (2 * X) + x' * 2 + 2 ≤ y * (2 * X) + x * 2 := by
  have hX : 0 ≤ X := by omega
  rcases lt_trichotomy y y' with h | h | h
  · left
    have h2 : 0 ≤ (y' - y - 1) * X := mul_nonneg (by omega) hX
    nlinarith
  · subst h
    have hxx : x ≠ x' := by
      rcases hne with h | h
      · exact h
      · exact absurd rfl h
    rcases lt_or_gt_of_ne hxx with h | h
    · left; omega
    · right; omega
  · right
    have h2 : 0 ≤ (y - y' - 1) * X := mul_nonneg (by omega) hX
    nlinarith

theorem lcd_fb_init_ok (o : SysOutcome) (s : Hal) (h : (lcd_fb_init o s).1 = 0) :
    o.open_ret ≠ -1 ∧ o.ioctl_ret ≠ -1 ∧ o.mmap_ret ≠ -1 := by
  by_cases e1 : o.open_ret = -1
  · simp [lcd_fb_init, e1] at h
  · have e1' : ¬ (-1 = o.open_ret) := fun e => e1 e.symm
    by_cases e2 : o.ioctl_ret = -1
    · simp [lcd_fb_init, e1', e2] at h
    · have e2' : ¬ (-1 = o.ioctl_ret) := fun e => e2 e.symm
      by_cases e3 : o.mmap_ret = -1
      · simp [lcd_fb_init, e1', e2', e3] at h
      · exact ⟨e1, e2, e3⟩

/-- C10: after a successful `lcd_fb_init` on a 16-bit device (so `px_width = 2`,
`line_width = 2*xres`, `screen_width = yres*line_width`, no overflow), for every
coordinate with `0 <= x < xres` and `0 <= y < yres` the pen of `lcd_fb_display_px` is at
offset `y*line_width + x*px_width`, its two bytes lie inside the mapped region
`[fb_mem, fb_mem + screen_width)` and no byte outside that region is changed; two
different in-range coordinates have disjoint 2-byte cells (for the second coordinate
it is enough that its column is in range). -/
theorem lcd_fb_display_px_in_bounds (o : SysOutcome) (s : Hal)
    (hret : (lcd_fb_init o s).1 = 0)
    (hbpp : o.info.bits_per_pixel = 16)
    (hline : o.info.xres * 2 < 2 ^ 31)
    (hscreen : o.info.yres * (o.info.xres * 2) < 2 ^ 31)
    (color x y x' y' : Int)
    (hx0 : 0 ≤ x) (hx : x < o.info.xres) (hy0 : 0 ≤ y) (hy : y < o.info.yres)
    (hx0' : 0 ≤ x') (hx' : x' < o.info.xres) :
    ((lcd_fb_init o s).2.px_width = 2
      ∧ (lcd_fb_init o s).2.line_width = 2 * (o.info.xres : Int)
      ∧ (lcd_fb_init o s).2.screen_width = (o.info.yres : Int) * (lcd_fb_init o s).2.line_width)
    ∧ pen8 (lcd_fb_init o s).2 x y = (lcd_fb_init o s).2.fb_mem
        + (y * (lcd_fb_init o s).2.line_width + x * (lcd_fb_init o s).2.px_width)
    ∧ (lcd_fb_init o s).2.fb_mem ≤ pen8 (lcd_fb_init o s).2 x y
    ∧ pen8 (lcd_fb_init o s).2 x y + 2
        ≤ (lcd_fb_init o s).2.fb_mem + (lcd_fb_init o s).2.screen_width
    ∧ (∀ i : Int, ¬ ((lcd_fb_init o s).2.fb_mem ≤ i
          ∧ i < (lcd_fb_init o s).2.fb_mem + (lcd_fb_init o s).2.screen_width) →
        (lcd_fb_display_px (lcd_fb_init o s).2 color x y).2.ram i = (lcd_fb_init o s).2.ram i)
    ∧ ((x ≠ x' ∨ y ≠ y') →
        pen8 (lcd_fb_init o s).2 x y + 2 ≤ pen8 (lcd_fb_init o s).2 x' y'
        ∨ pen8 (lcd_fb_init o s).2 x' y' + 2 ≤ pen8 (lcd_fb_init o s).2 x y) := by
  obtain ⟨h1, h2, _⟩ := lcd_fb_init_ok o s hret
  obtain ⟨g1, g2, g3'⟩ := lcd_fb_init_fields o s h1 h2
    (by rw [hbpp]; norm_num) (by rw [hbpp]; exact hline) (by rw [hbpp]; exact hscreen)
  rw [hbpp] at g1 g2 g3'
  have gpw : (lcd_fb_init o s).2.px_width = 2 := by rw [g1]; rfl
  have glw : (lcd_fb_init o s).2.line_width = 2 * (o.info.xres : Int) := by
    rw [g2]; push_cast; ring
  have g3 : (lcd_fb_init o s).2.screen_width
      = (o.info.yres : Int) * (lcd_fb_init o s).2.line_width := by
    rw [g3', g2]; push_cast; ring
  have hb := offset_bounds o.info.xres o.info.yres x y hx0 hx hy0 hy
  have hpen : ∀ u v : Int, pen8 (lcd_fb_init o s).2 u v =
      (lcd_fb_init o s).2.fb_mem + (v * (2 * (o.info.xres : Int)) + u * 2) := by
    intro u v
    unfold pen8
    rw [glw, gpw]; ring
  refine ⟨⟨gpw, glw, g3⟩, ?_, ?_, ?_, ?_, ?_⟩
  · unfold pen8; ring
  · rw [hpen]; omega
  · rw [hpen, g3, glw]; omega
  · intro i hi
    have hlo : (lcd_fb_init o s).2.fb_mem ≤ pen8 (lcd_fb_init o s).2 x y := by
      rw [hpen]; omega
    have hhi : pen8 (lcd_fb_init o s).2 x y + 2
        ≤ (lcd_fb_init o s).2.fb_mem + (lcd_fb_init o s).2.screen_width := by
      rw [hpen, g3, glw]; omega
    have n1 : i ≠ pen8 (lcd_fb_init o s).2 x y := by omega
    have n2 : i ≠ pen8 (lcd_fb_init o s).2 x y + 1 := by omega
    simp only [lcd_fb_display_px, store16, n1, n2, if_false]
  · intro hne
    have hd := offset_disjoint o.info.xres x y x' y' hx0 hx hx0' hx' hne
    rw [hpen, hpen]
    omega

/-- Instance of C10 on the 320 by 240 16-bit device mapped at address 4096: the last
pixel of a line and the first pixel of the next one. -/
theorem lcd_fb_display_px_in_bounds_witness :
    pen8 (lcd_fb_init ⟨3, 0, ⟨320, 240, 16⟩, 4096⟩ initialHal).2 319 0 = 4096 + 638
    ∧ pen8 (lcd_fb_init ⟨3, 0, ⟨320, 240, 16⟩, 4096⟩ initialHal).2 0 1 = 4096 + 640
    ∧ (pen8 (lcd_fb_init ⟨3, 0, ⟨320, 240, 16⟩, 4096⟩ initialHal).2 319 0 + 2
        ≤ pen8 (lcd_fb_init ⟨3, 0, ⟨320, 240, 16⟩, 4096⟩ initialHal).2 0 1
      ∨ pen8 (lcd_fb_init ⟨3, 0, ⟨320, 240, 16⟩, 4096⟩ initialHal).2 0 1 + 2
        ≤ pen8 (lcd_fb_init ⟨3, 0, ⟨320, 240, 16⟩, 4096⟩ initialHal).2 319 0) := by
  have h := lcd_fb_display_px_in_bounds ⟨3, 0, ⟨320, 240, 16⟩, 4096⟩ initialHal
    (by decide) rfl (by decide) (by decide) 0 319 0 0 1
    (by decide) (by decide) (by decide) (by decide) (by decide) (by decide)
  exact ⟨by decide, by decide, h.2.2.2.2.2 (Or.inl (by decide))⟩

/-! ## Flushing one pixel command (C3) -/

theorem read16_four (ram : Int → Nat) (a1 a2 a3 a4 a : Int) (v : Nat) (hv : v < 65536)
    (h1 : a = a1 ∨ a + 2 ≤ a1 ∨ a1 + 2 ≤ a) (h2 : a = a2 ∨ a + 2 ≤ a2 ∨ a2 + 2 ≤ a)
    (h3 : a = a3 ∨ a + 2 ≤ a3 ∨ a3 + 2 ≤ a) (h4 : a = a4 ∨ a + 2 ≤ a4 ∨ a4 + 2 ≤ a) :
    read16 (store16 (store16 (store16 (store16 ram a1 v) a2 v) a3 v) a4 v) a =
      if a = a1 ∨ a = a2 ∨ a = a3 ∨ a = a4 then v else read16 ram a := by
  rw [read16_store16 _ a4 a v hv h4, read16_store16 _ a3 a v hv h3,
    read16_store16 _ a2 a v hv h2, read16_store16 _ a1 a v hv h1]
  by_cases e4 : a = a4
  · simp [e4]
  · by_cases e3 : a = a3
    · simp [e3]
    · by_cases e2 : a = a2
      · simp [e2]
      · by_cases e1 : a = a1
        · simp [e1]
        · simp [e1, e2, e3, e4]

theorem nes_flush_buf_step_ram (h : Headers) (s : Hal) (p : Pixel) :
    (nes_flush_buf_step h s p).ram =
      store16 (store16 (store16 (store16 s.ram
        (pen8 s p.x p.y) (pen16_value (pal2color (h.palette (p.c : Int)))))
        (pen8 s (p.x + 1) p.y) (pen16_value (pal2color (h.palette (p.c : Int)))))
        (pen8 s p.x (p.y + 1)) (pen16_value (pal2color (h.palette (p.c : Int)))))
        (pen8 s (p.x + 1) (p.y + 1)) (pen16_value (pal2color (h.palette (p.c : Int)))) :=
  rfl

theorem nes_flush_buf_step_stores (h : Headers) (s : Hal) (p : Pixel) :
    (nes_flush_buf_step h s p).stores = s.stores ++
      [⟨p.x, p.y, pen8 s p.x p.y, pen16_value (pal2color (h.palette (p.c : Int)))⟩,
       ⟨p.x + 1, p.y, pen8 s (p.x + 1) p.y, pen16_value (pal2color (h.palette (p.c : Int)))⟩,
       ⟨p.x, p.y + 1, pen8 s p.x (p.y + 1), pen16_value (pal2color (h.palette (p.c : Int)))⟩,
       ⟨p.x + 1, p.y + 1, pen8 s (p.x + 1) (p.y + 1),
         pen16_value (pal2color (h.palette (p.c : Int)))⟩] := by
  simp [nes_flush_buf_step, lcd_fb_display_px, pen8]

theorem pen16_value_palette (h : Headers) (hpal : paletteOK h) (c : Nat) (hc : c < 64) :
    pen16_value (pal2color (h.palette (c : Int))) = encodePal (h.palette (c : Int)) := by
  obtain ⟨hr, hg, hb⟩ := hpal c hc
  exact pen16_value_pal2color _ hr hg hb

theorem on_screen_store (s : Hal) (xres yres : Nat)
    (hpw : s.px_width = 2) (hlw : s.line_width = 2 * (xres : Int))
    (hsw : s.screen_width = (yres : Int) * s.line_width)
    (hfit : yres * (2 * xres) < 2 ^ 31)
    (x y : Int) (hx0 : 0 ≤ x) (hx : x < (xres : Int)) (hy0 : 0 ≤ y) (hy : y < (yres : Int))
    (v : Nat) :
    noOverflow s ⟨x, y, pen8 s x y, v⟩
    ∧ s.fb_mem ≤ pen8 s x y ∧ pen8 s x y + 2 ≤ s.fb_mem + s.screen_width := by
  have hb := offset_bounds (xres : Int) (yres : Int) x y hx0 hx hy0 hy
  have hfit' : (yres : Int) * (2 * (xres : Int)) < 2147483648 := by
    have hcast : ((yres * (2 * xres) : Nat) : Int) < 2147483648 := by omega
    push_cast at hcast
    exact hcast
  have hX : (1 : Int) ≤ (xres : Int) := by omega
  have hyX : 0 ≤ y * (2 * (xres : Int) - 1) := mul_nonneg hy0 (by omega)
  have hyle : y ≤ y * (2 * (xres : Int)) := by nlinarith
  have hpen : pen8 s x y = s.fb_mem + (y * (2 * (xres : Int)) + x * 2) := by
    unfold pen8
    rw [hlw, hpw]; ring
  refine ⟨⟨?_, ?_, ?_, ?_⟩, ?_, ?_⟩
  · unfold fitsInt; constructor <;> simp only <;> omega
  · unfold fitsInt; constructor <;> simp only <;> omega
  · unfold fitsInt; simp only [hlw]; constructor <;> omega
  · unfold fitsInt; simp only [hpw]; constructor <;> omega
  · rw [hpen]; omega
  · rw [hpen, hsw, hlw]; omega

theorem on_screen_block (h : Headers) (s : Hal) (xres yres : Nat)
    (hpw : s.px_width = 2) (hlw : s.line_width = 2 * (xres : Int))
    (hsw : s.screen_width = (yres : Int) * s.line_width)
    (hfit : yres * (2 * xres) < 2 ^ 31)
    (p : Pixel) (hx0 : 0 ≤ p.x) (hx1 : p.x + 1 < (xres : Int))
    (hy0 : 0 ≤ p.y) (hy1 : p.y + 1 < (yres : Int)) :
    ∀ e ∈ blockStores h s p,
      noOverflow s e ∧ s.fb_mem ≤ e.addr ∧ e.addr + 2 ≤ s.fb_mem + s.screen_width := by
  intro e he
  unfold blockStores at he
  simp only [List.mem_cons, List.mem_singleton, List.not_mem_nil, or_false] at he
  rcases he with he | he | he | he
  · rw [he]
    exact on_screen_store s xres yres hpw hlw hsw hfit p.x p.y hx0 (by omega) hy0 (by omega) _
  · rw [he]
    exact on_screen_store s xres yres hpw hlw hsw hfit (p.x + 1) p.y (by omega) hx1 hy0
      (by omega) _
  · rw [he]
    exact on_screen_store s xres yres hpw hlw hsw hfit p.x (p.y + 1) hx0 (by omega)
      (by omega) hy1 _
  · rw [he]
    exact on_screen_store s xres yres hpw hlw hsw hfit (p.x + 1) (p.y + 1) (by omega) hx1
      (by omega) hy1 _

theorem nes_flush_buf_step_block (h : Headers) (s : Hal) (p : Pixel) :
    (nes_flush_buf_step h s p).stores = s.stores ++ blockStores h s p := by
  rw [nes_flush_buf_step_stores]
  rfl

theorem nes_flush_buf_stores (h : Headers) (buf : PixelBuf) (s : Hal) :
    (nes_flush_buf h s buf).stores = s.stores ++ buf.flatMap (blockStores h s) := by
  induction buf generalizing s with
  | nil => simp [nes_flush_buf]
  | cons p rest ih =>
    have e : nes_flush_buf h s (p :: rest) = nes_flush_buf h (nes_flush_buf_step h s p) rest :=
      rfl
    have hb : blockStores h (nes_flush_buf_step h s p) = blockStores h s := by
      funext q
      rfl
    rw [e, ih (nes_flush_buf_step h s p), hb, nes_flush_buf_step_block, List.flatMap_cons,
      List.append_assoc]

/-- C3 as stated fails on a 16-bit device one pixel wide (`xres = 1`, so
`line_width = 2`): the command `(0, 0, 1)` makes its four stores at the offsets
`0, 2, 2, 4` from `fb_mem`, which are only three distinct offsets (all four stores
are inside the mapped region and none of their `int` operations overflows). -/
theorem nes_flush_buf_single_counterexample :
    (mockHal 1 240).px_width = 2 ∧ (mockHal 1 240).line_width = 2 * 1
    ∧ (∀ e ∈ newStores (mockHal 1 240)
          (nes_flush_buf (sampleHeaders 256 240) (mockHal 1 240) [⟨0, 0, 1⟩]),
        noOverflow (mockHal 1 240) e ∧ (mockHal 1 240).fb_mem ≤ e.addr
          ∧ e.addr + 2 ≤ (mockHal 1 240).fb_mem + (mockHal 1 240).screen_width)
    ∧ ((nes_flush_buf (sampleHeaders 256 240) (mockHal 1 240) [⟨0, 0, 1⟩]).stores.map
        fun e => e.addr - (mockHal 1 240).fb_mem) = [0, 2, 2, 4]
    ∧ ¬ ((nes_flush_buf (sampleHeaders 256 240) (mockHal 1 240) [⟨0, 0, 1⟩]).stores.map
        fun e => e.addr - (mockHal 1 240).fb_mem).Nodup := by
  decide

/-- C3, amended: with a palette table of `uint8` channels, on a 16-bit geometry
(`px_width = 2`, `line_width = 2*xres`, `screen_width = yres*line_width` within the
`int` range), for every pixel command `(x, y, c)` with `c < 64` whose 2x2 block lies on
the screen (`0 <= x`, `x+1 < xres`, `0 <= y`, `y+1 < yres`), `nes_flush_buf` on the
buffer holding that one command makes exactly four stores, at the four distinct
addresses `fb_mem + y'*line_width + x'*px_width` for `(x',y')` in `(x,y)`, `(x+1,y)`,
`(x,y+1)`, `(x+1,y+1)`, each of the encoding of `palette[c]`, and afterwards each of
the four cells reads back that encoding; no `int` operation of these four stores
overflows and each store lies inside the mapped region. -/
theorem nes_flush_buf_single (h : Headers) (hpal : paletteOK h) (s : Hal) (xres yres : Nat)
    (hpw : s.px_width = 2) (hlw : s.line_width = 2 * (xres : Int))
    (hsw : s.screen_width = (yres : Int) * s.line_width)
    (hfit : yres * (2 * xres) < 2 ^ 31)
    (p : Pixel) (hc : p.c < 64)
    (hx0 : 0 ≤ p.x) (hx1 : p.x + 1 < (xres : Int))
    (hy0 : 0 ≤ p.y) (hy1 : p.y + 1 < (yres : Int)) :
    (nes_flush_buf h s [p]).stores = s.stores ++
      [⟨p.x, p.y, s.fb_mem + (p.y * s.line_width + p.x * s.px_width),
          encodePal (h.palette (p.c : Int))⟩,
       ⟨p.x + 1, p.y, s.fb_mem + (p.y * s.line_width + (p.x + 1) * s.px_width),
          encodePal (h.palette (p.c : Int))⟩,
       ⟨p.x, p.y + 1, s.fb_mem + ((p.y + 1) * s.line_width + p.x * s.px_width),
          encodePal (h.palette (p.c : Int))⟩,
       ⟨p.x + 1, p.y + 1, s.fb_mem + ((p.y + 1) * s.line_width + (p.x + 1) * s.px_width),
          encodePal (h.palette (p.c : Int))⟩]
    ∧ [p.y * s.line_width + p.x * s.px_width,
       p.y * s.line_width + (p.x + 1) * s.px_width,
       (p.y + 1) * s.line_width + p.x * s.px_width,
       (p.y + 1) * s.line_width + (p.x + 1) * s.px_width].Nodup
    ∧ (∀ off ∈ [p.y * s.line_width + p.x * s.px_width,
          p.y * s.line_width + (p.x + 1) * s.px_width,
          (p.y + 1) * s.line_width + p.x * s.px_width,
          (p.y + 1) * s.line_width + (p.x + 1) * s.px_width],
        read16 (nes_flush_buf h s [p]).ram (s.fb_mem + off)
          = encodePal (h.palette (p.c : Int)))
    ∧ (∀ e ∈ newStores s (nes_flush_buf h s [p]),
        noOverflow s e ∧ s.fb_mem ≤ e.addr ∧ e.addr + 2 ≤ s.fb_mem + s.screen_width) := by
  have hxres : (2 : Int) ≤ (xres : Int) := by omega
  have hv := pen16_value_palette h hpal p.c hc
  have hvlt := pen16_value_lt (pal2color (h.palette (p.c : Int)))
  have e2 : p.y * s.line_width + (p.x + 1) * s.px_width
      = p.y * s.line_width + p.x * s.px_width + 2 := by rw [hpw]; ring
  have e3 : (p.y + 1) * s.line_width + p.x * s.px_width
      = p.y * s.line_width + p.x * s.px_width + 2 * (xres : Int) := by rw [hlw]; ring
  have e4 : (p.y + 1) * s.line_width + (p.x + 1) * s.px_width
      = p.y * s.line_width + p.x * s.px_width + 2 * (xres : Int) + 2 := by
    rw [hlw, hpw]; ring
  have hflush : nes_flush_buf h s [p] = nes_flush_buf_step h s p := rfl
  refine ⟨?_, ?_, ?_, ?_⟩
  · rw [hflush, nes_flush_buf_step_stores, hv]
    simp only [pen8, add_assoc]
  · rw [e2, e3, e4]
    generalize p.y * s.line_width + p.x * s.px_width = a
    simp only [List.nodup_cons, List.mem_cons, List.mem_singleton, List.not_mem_nil,
      or_false, not_false_eq_true, List.nodup_nil, and_true, not_or]
    omega
  · intro off hoff
    rw [hflush, nes_flush_buf_step_ram, hv]
    rw [hv] at hvlt
    simp only [pen8, add_assoc]
    rw [e2, e3, e4]
    rw [e2, e3, e4] at hoff
    generalize p.y * s.line_width + p.x * s.px_width = a at hoff ⊢
    simp only [List.mem_cons, List.mem_singleton, List.not_mem_nil, or_false] at hoff
    rw [read16_four _ _ _ _ _ _ _ hvlt (by omega) (by omega) (by omega) (by omega)]
    rw [if_pos (by omega)]
  · intro e he
    unfold newStores at he
    rw [hflush, nes_flush_buf_step_block, List.drop_left] at he
    exact on_screen_block h s xres yres hpw hlw hsw hfit p hx0 hx1 hy0 hy1 e he

theorem greyPalette_ok (w hgt : Nat) : paletteOK (sampleHeaders w hgt) := by
  intro c hc
  have h0 : (0 : Int) ≤ (c : Int) := by omega
  have h1 : (c : Int) < 64 := by omega
  simp only [sampleHeaders, greyPalette, h0, h1, and_self, if_true]
  omega

/-- Instance of amended C3 on the 320 by 240 device: the command `(10, 20, 5)`. -/
theorem nes_flush_buf_single_witness :
    (nes_flush_buf (sampleHeaders 256 240) (mockHal 320 240) [⟨10, 20, 5⟩]).stores =
      [⟨10, 20, 4096 + 12820, 0x10A2⟩, ⟨11, 20, 4096 + 12822, 0x10A2⟩,
       ⟨10, 21, 4096 + 13460, 0x10A2⟩, ⟨11, 21, 4096 + 13462, 0x10A2⟩] :=
  (nes_flush_buf_single (sampleHeaders 256 240) (greyPalette_ok 256 240) (mockHal 320 240)
    320 240 (by decide) (by decide) (by decide) (by decide) ⟨10, 20, 5⟩ (by decide)
    (by decide) (by decide) (by decide) (by decide)).1

/-! ## Flushing a buffer: the last write wins (C9) -/

theorem nes_flush_buf_geometry (h : Headers) (buf : PixelBuf) (s : Hal) :
    (nes_flush_buf h s buf).fb_mem = s.fb_mem
    ∧ (nes_flush_buf h s buf).line_width = s.line_width
    ∧ (nes_flush_buf h s buf).px_width = s.px_width := by
  induction buf generalizing s with
  | nil => exact ⟨rfl, rfl, rfl⟩
  | cons p rest ih =>
    have e : nes_flush_buf h s (p :: rest) = nes_flush_buf h (nes_flush_buf_step h s p) rest :=
      rfl
    rw [e]
    exact ih (nes_flush_buf_step h s p)

theorem nes_flush_buf_concat (h : Headers) (s : Hal) (init : PixelBuf) (p : Pixel) :
    nes_flush_buf h s (init ++ [p]) = nes_flush_buf_step h (nes_flush_buf h s init) p := by
  unfold nes_flush_buf
  rw [List.foldl_append]
  rfl

theorem lastCovering_concat (init : PixelBuf) (p : Pixel) (x y : Int) :
    lastCovering (init ++ [p]) x y =
      if covers x y p = true then some p else lastCovering init x y := by
  unfold lastCovering
  by_cases hcov : covers x y p = true
  · rw [if_pos hcov, List.filter_append]
    have e : List.filter (covers x y) [p] = [p] := by simp [List.filter, hcov]
    rw [e, List.getLast?_concat]
  · rw [if_neg hcov, List.filter_append]
    have e : List.filter (covers x y) [p] = [] := by simp [List.filter, hcov]
    rw [e, List.append_nil]

theorem pen8_eq_iff (s : Hal) (X : Int) (hpw : s.px_width = 2) (hlw : s.line_width = 2 * X)
    (x y x' y' : Int) (hx0 : 0 ≤ x) (hx : x < X) (hx0' : 0 ≤ x') (hx' : x' < X) :
    (pen8 s x y = pen8 s x' y' ↔ (x = x' ∧ y = y'))
    ∧ (pen8 s x y = pen8 s x' y' ∨ pen8 s x y + 2 ≤ pen8 s x' y'
        ∨ pen8 s x' y' + 2 ≤ pen8 s x y) := by
  have hpen : ∀ u v : Int, pen8 s u v = s.fb_mem + (v * (2 * X) + u * 2) := by
    intro u v
    unfold pen8
    rw [hlw, hpw]; ring
  by_cases e : x = x' ∧ y = y'
  · obtain ⟨e1, e2⟩ := e
    subst e1 e2
    simp
  · have hne : x ≠ x' ∨ y ≠ y' := by
      by_cases e1 : x = x'
      · right
        intro e2
        exact e ⟨e1, e2⟩
      · left
        exact e1
    have hd := offset_disjoint X x y x' y' hx0 hx hx0' hx' hne
    rw [hpen, hpen]
    constructor
    · constructor
      · intro heq
        omega
      · intro h'
        exact absurd h' e
    · omega

theorem nes_flush_buf_step_read (h : Headers) (s : Hal) (X : Int)
    (hpw : s.px_width = 2) (hlw : s.line_width = 2 * X)
    (p : Pixel) (hp0 : 0 ≤ p.x) (hp1 : p.x + 1 < X)
    (x y : Int) (hx0 : 0 ≤ x) (hx : x < X) :
    read16 (nes_flush_buf_step h s p).ram (pen8 s x y) =
      if covers x y p = true then pen16_value (pal2color (h.palette (p.c : Int)))
      else read16 s.ram (pen8 s x y) := by
  obtain ⟨i1, d1⟩ := pen8_eq_iff s X hpw hlw x y p.x p.y hx0 hx hp0 (by omega)
  obtain ⟨i2, d2⟩ := pen8_eq_iff s X hpw hlw x y (p.x + 1) p.y hx0 hx (by omega) hp1
  obtain ⟨i3, d3⟩ := pen8_eq_iff s X hpw hlw x y p.x (p.y + 1) hx0 hx hp0 (by omega)
  obtain ⟨i4, d4⟩ := pen8_eq_iff s X hpw hlw x y (p.x + 1) (p.y + 1) hx0 hx (by omega) hp1
  rw [nes_flush_buf_step_ram,
    read16_four _ _ _ _ _ _ _ (pen16_value_lt _) d1 d2 d3 d4]
  have hiff : (pen8 s x y = pen8 s p.x p.y ∨ pen8 s x y = pen8 s (p.x + 1) p.y
      ∨ pen8 s x y = pen8 s p.x (p.y + 1) ∨ pen8 s x y = pen8 s (p.x + 1) (p.y + 1))
      ↔ covers x y p = true := by
    rw [i1, i2, i3, i4]
    simp only [covers, Bool.and_eq_true, Bool.or_eq_true, beq_iff_eq]
    constructor
    · intro hh
      omega
    · intro hh
      omega
  by_cases hcov : covers x y p = true
  · rw [if_pos hcov, if_pos (hiff.mpr hcov)]
  · rw [if_neg hcov, if_neg (fun hh => hcov (hiff.mp hh))]

theorem nes_flush_buf_read (h : Headers) (s : Hal) (X : Int)
    (hpw : s.px_width = 2) (hlw : s.line_width = 2 * X)
    (x y : Int) (hx0 : 0 ≤ x) (hx : x < X) (buf : PixelBuf)
    (hin : ∀ p ∈ buf, 0 ≤ p.x ∧ p.x + 1 < X) :
    read16 (nes_flush_buf h s buf).ram (pen8 s x y) =
      match lastCovering buf x y with
      | some p => pen16_value (pal2color (h.palette (p.c : Int)))
      | none => read16 s.ram (pen8 s x y) := by
  induction buf using List.reverseRecOn with
  | nil => rfl
  | append_singleton init p ih =>
    have hin' : ∀ q ∈ init, 0 ≤ q.x ∧ q.x + 1 < X :=
      fun q hq => hin q (List.mem_append_left _ hq)
    obtain ⟨hp0, hp1⟩ := hin p (List.mem_append_right _ (List.mem_singleton_self p))
    obtain ⟨g1, g2, g3⟩ := nes_flush_buf_geometry h init s
    have hpen : pen8 (nes_flush_buf h s init) x y = pen8 s x y := by
      unfold pen8
      rw [g1, g2, g3]
    have hstep := nes_flush_buf_step_read h (nes_flush_buf h s init) X
      (by rw [g3]; exact hpw) (by rw [g2]; exact hlw) p hp0 hp1 x y hx0 hx
    rw [hpen] at hstep
    rw [nes_flush_buf_concat, hstep, lastCovering_concat]
    by_cases hcov : covers x y p = true
    · simp only [hcov, if_true]
    · simp only [hcov, if_false]
      exact ih hin'

/-- C9 as stated fails when a block spills over the right edge of the screen: on the
320 by 240 16-bit device, after flushing the commands `(0, 1, 10)` and then
`(319, 0, 20)`, the only command whose block covers the coordinate `(0, 1)` is the
first, yet the cell of `(0, 1)` holds the encoding of `palette[20]`, written by the
second command at the coordinate `(320, 0)`, which has the same byte offset 640 (all
stores of the flush are inside the mapped region and none of their `int` operations
overflows). -/
theorem nes_flush_buf_last_write_counterexample :
    lastCovering [⟨0, 1, 10⟩, ⟨319, 0, 20⟩] 0 1 = some ⟨0, 1, 10⟩
    ∧ (∀ e ∈ newStores (mockHal 320 240)
          (nes_flush_buf (sampleHeaders 256 240) (mockHal 320 240)
            [⟨0, 1, 10⟩, ⟨319, 0, 20⟩]),
        noOverflow (mockHal 320 240) e ∧ (mockHal 320 240).fb_mem ≤ e.addr
          ∧ e.addr + 2 ≤ (mockHal 320 240).fb_mem + (mockHal 320 240).screen_width)
    ∧ pen8 (mockHal 320 240) 320 0 = pen8 (mockHal 320 240) 0 1
    ∧ read16 (nes_flush_buf (sampleHeaders 256 240) (mockHal 320 240)
        [⟨0, 1, 10⟩, ⟨319, 0, 20⟩]).ram (pen8 (mockHal 320 240) 0 1)
        = encodePal ((sampleHeaders 256 240).palette 20)
    ∧ read16 (nes_flush_buf (sampleHeaders 256 240) (mockHal 320 240)
        [⟨0, 1, 10⟩, ⟨319, 0, 20⟩]).ram (pen8 (mockHal 320 240) 0 1)
        ≠ encodePal ((sampleHeaders 256 240).palette 10) := by
  decide

/-- C9, amended: with a palette table of `uint8` channels, on a 16-bit geometry
(`px_width = 2`, `line_width = 2*xres`, `screen_width = yres*line_width` within the
`int` range), for every pixel buffer with valid palette indices in which the 2x2 block
of every command lies on the screen (`0 <= x`, `x+1 < xres`, `0 <= y`, `y+1 < yres`),
and every coordinate covered by the block of at least one command, after
`nes_flush_buf` the 16-bit value at that coordinate's address is the encoding of the
palette colour of the last command, in buffer order, whose block covers the
coordinate; no `int` operation of the flush overflows and each of its stores lies
inside the mapped region. -/
theorem nes_flush_buf_last_write (h : Headers) (hpal : paletteOK h) (s : Hal)
    (xres yres : Nat)
    (hpw : s.px_width = 2) (hlw : s.line_width = 2 * (xres : Int))
    (hsw : s.screen_width = (yres : Int) * s.line_width)
    (hfit : yres * (2 * xres) < 2 ^ 31)
    (buf : PixelBuf) (hc : ∀ p ∈ buf, p.c < 64)
    (hin : ∀ p ∈ buf, (0 ≤ p.x ∧ p.x + 1 < (xres : Int))
      ∧ (0 ≤ p.y ∧ p.y + 1 < (yres : Int)))
    (x y : Int) (hcov : ∃ q ∈ buf, covers x y q = true) :
    (∃ p, lastCovering buf x y = some p
      ∧ read16 (nes_flush_buf h s buf).ram
          (s.fb_mem + (y * s.line_width + x * s.px_width))
        = encodePal (h.palette (p.c : Int)))
    ∧ (∀ e ∈ newStores s (nes_flush_buf h s buf),
        noOverflow s e ∧ s.fb_mem ≤ e.addr ∧ e.addr + 2 ≤ s.fb_mem + s.screen_width) := by
  have hcol : ∀ p ∈ buf, 0 ≤ p.x ∧ p.x + 1 < (xres : Int) := fun p hp => (hin p hp).1
  constructor
  · obtain ⟨q, hq, hqcov⟩ := hcov
    have hqin := hcol q hq
    have hxy : (x = q.x ∨ x = q.x + 1) ∧ (y = q.y ∨ y = q.y + 1) := by
      simpa only [covers, Bool.and_eq_true, Bool.or_eq_true, beq_iff_eq] using hqcov
    have hx0 : 0 ≤ x := by omega
    have hx : x < (xres : Int) := by omega
    have hne : List.filter (covers x y) buf ≠ [] := by
      intro hnil
      have hmem : q ∈ List.filter (covers x y) buf := List.mem_filter.mpr ⟨hq, hqcov⟩
      rw [hnil] at hmem
      exact absurd hmem (List.not_mem_nil q)
    cases hlast : lastCovering buf x y with
    | none =>
      unfold lastCovering at hlast
      exact absurd (List.getLast?_eq_none_iff.mp hlast) hne
    | some p =>
      have hp : p ∈ buf := by
        unfold lastCovering at hlast
        exact (List.mem_filter.mp (List.mem_of_getLast?_eq_some hlast)).1
      have hread := nes_flush_buf_read h s xres hpw hlw x y hx0 hx buf hcol
      rw [hlast] at hread
      refine ⟨p, rfl, ?_⟩
      have hpen : s.fb_mem + (y * s.line_width + x * s.px_width) = pen8 s x y := by
        unfold pen8; ring
      rw [hpen, hread]
      exact pen16_value_palette h hpal p.c (hc p hp)
  · intro e he
    unfold newStores at he
    rw [nes_flush_buf_stores, List.drop_left] at he
    obtain ⟨p, hp, hep⟩ := List.mem_flatMap.mp he
    obtain ⟨⟨hx0, hx1⟩, hy0, hy1⟩ := hin p hp
    exact on_screen_block h s xres yres hpw hlw hsw hfit p hx0 hx1 hy0 hy1 e hep

/-- Instance of amended C9 on the 320 by 240 device: two overlapping blocks, the
coordinate `(11, 21)` lies in both and reads the colour of the later command. -/
theorem nes_flush_buf_last_write_witness :
    lastCovering [⟨10, 20, 5⟩, ⟨11, 21, 7⟩, ⟨100, 50, 9⟩] 11 21 = some ⟨11, 21, 7⟩
    ∧ read16 (nes_flush_buf (sampleHeaders 256 240) (mockHal 320 240)
        [⟨10, 20, 5⟩, ⟨11, 21, 7⟩, ⟨100, 50, 9⟩]).ram (4096 + (21 * 640 + 11 * 2))
      = encodePal ((sampleHeaders 256 240).palette 7) := by
  obtain ⟨⟨p, hp, hr⟩, _⟩ := nes_flush_buf_last_write (sampleHeaders 256 240)
    (greyPalette_ok 256 240) (mockHal 320 240) 320 240 (by decide) (by decide) (by decide)
    (by decide) [⟨10, 20, 5⟩, ⟨11, 21, 7⟩, ⟨100, 50, 9⟩] (by decide) (by decide) 11 21
    ⟨⟨11, 21, 7⟩, by decide, by decide⟩
  have hlast : lastCovering [⟨10, 20, 5⟩, ⟨11, 21, 7⟩, ⟨100, 50, 9⟩] 11 21
      = some ⟨11, 21, 7⟩ := by decide
  rw [hlast] at hp
  have hp' : p = ⟨11, 21, 7⟩ := (Option.some.inj hp).symm
  subst hp'
  exact ⟨hlast, hr⟩

/-! ## Background fill (C4) -/

end LiteNES
